import Mathlib

/-!
Verification of the c8488 weather-station frame assembler and line-protocol
encoder (src/main.rs) against its natural-language specification.

Bytes are modelled as `Nat` (a real frame's entries are all below 256);
Rust `String`s are modelled as `List Nat` (UTF-8 byte sequences) on the
assembler side and as `List Char` on the encoder side.  A Rust panic
(out-of-range slice) is modelled as the explicit `PushResult.panic` outcome.
-/

namespace C8488

/-- Mirrors the Rust enum `MessageError` (src/main.rs lines 8-18):
`buffer` = invalid buffer size, `format` = invalid buffer data,
`utf8` = string conversion failure, `complete` = message was complete. -/
inductive MessageError where
  | buffer
  | format
  | utf8
  | complete
deriving DecidableEq

/-- Outcome of one `push` call: success, a Rust panic (out-of-bounds slice of
the payload area), or an error return. -/
inductive PushResult where
  | ok
  | panic
  | error (e : MessageError)
deriving DecidableEq

/-- Mirrors the Rust struct `Message` (src/main.rs lines 20-26).
`data` holds the accumulated UTF-8 bytes of the payload text. -/
structure Message where
  data : List Nat
  typ : Nat
  length : Nat
  current : Nat
deriving DecidableEq

/-- Mirrors `Message::default()`: empty data, all numeric fields zero. -/
def Message.init : Message := ⟨[], 0, 0, 0⟩

/-- Mirrors `Message::complete` (src/main.rs lines 29-31). -/
def Message.complete (m : Message) : Bool :=
  m.typ != 0 && m.current == m.length

/-- Mirrors `Message::finish` (src/main.rs lines 33-35). -/
def Message.finish (m : Message) : Nat × List Nat :=
  (m.typ, m.data)

/-- A UTF-8 continuation byte, `0x80..0xBF`. -/
def isUtf8Cont (b : Nat) : Bool :=
  decide (0x80 ≤ b ∧ b < 0xC0)

/-- UTF-8 validity of a byte sequence, as checked by Rust `str::from_utf8`:
ASCII bytes stand alone; 2-byte leads are `0xC2..0xDF`; 3-byte leads
`0xE0..0xEF` with the first continuation restricted for `0xE0` (no overlong)
and `0xED` (no surrogates); 4-byte leads `0xF0..0xF4` with the first
continuation restricted for `0xF0` and `0xF4` (≤ U+10FFFF). -/
def isValidUtf8 : List Nat → Bool
  | [] => true
  | b :: rest =>
    if b < 0x80 then
      isValidUtf8 rest
    else if b < 0xC2 then
      false
    else if b < 0xE0 then
      match rest with
      | b1 :: rest2 => isUtf8Cont b1 && isValidUtf8 rest2
      | [] => false
    else if b < 0xF0 then
      match rest with
      | b1 :: b2 :: rest2 =>
        (if b = 0xE0 then decide (0xA0 ≤ b1 ∧ b1 < 0xC0)
         else if b = 0xED then decide (0x80 ≤ b1 ∧ b1 < 0xA0)
         else isUtf8Cont b1) && isUtf8Cont b2 && isValidUtf8 rest2
      | _ => false
    else if b < 0xF5 then
      match rest with
      | b1 :: b2 :: b3 :: rest2 =>
        (if b = 0xF0 then decide (0x90 ≤ b1 ∧ b1 < 0xC0)
         else if b = 0xF4 then decide (0x80 ≤ b1 ∧ b1 < 0x90)
         else isUtf8Cont b1) && isUtf8Cont b2 && isUtf8Cont b3 && isValidUtf8 rest2
      | _ => false
    else false

/-- The payload slice of a frame: `&buf[7..61][..buf[6]]` in the Rust source,
i.e. the first `buf[6]` bytes of the 54-byte payload area. -/
def payloadOf (buf : List Nat) : List Nat :=
  ((buf.drop 7).take 54).take (buf.getD 6 0)

/-- Mirrors `Message::push` (src/main.rs lines 37-67).  The state after the
call is returned alongside the outcome; `.panic` models the Rust panic raised
by the slice `&buf[7..61][..payload_length]` when `payload_length > 54`
(that slice is evaluated before the type/length adoption and before every
validation check). -/
def push (m : Message) (buf : List Nat) : Message × PushResult :=
  if buf.length ≠ 64 then
    (m, .error .buffer)
  else
    let msg_type := buf.getD 0 0
    let msg_length := buf.getD 5 0 / 16
    let msg_index := buf.getD 5 0 % 16
    let payload_length := buf.getD 6 0
    if 54 < payload_length then
      (m, .panic)
    else
      let payload := ((buf.drop 7).take 54).take payload_length
      let endByte := buf.getD 63 0
      let m1 := if m.typ = 0 then { m with typ := msg_type, length := msg_length } else m
      if m1.length ≤ m1.current then
        (m1, .error .complete)
      else if (m1.typ, m1.length, m1.current + 1, 0xfd) ≠ (msg_type, msg_length, msg_index, endByte) then
        (m1, .error .format)
      else if ¬ isValidUtf8 payload then
        (m1, .error .utf8)
      else
        ({ m1 with data := m1.data ++ payload, current := m1.current + 1 }, .ok)

/-- Pushes a list of frames in order; `some m` when every push returned `Ok`,
`none` as soon as one push fails or panics. -/
def pushAllOk : Message → List (List Nat) → Option Message
  | m, [] => some m
  | m, buf :: rest =>
    match push m buf with
    | (m2, PushResult.ok) => pushAllOk m2 rest
    | _ => none

/-- Builds a concrete 64-byte frame: type byte `t`, packed nibble byte `five`
at offset 5, payload-length byte `plen` at offset 6, the given payload padded
with zeros to the 54-byte area, and the end marker `0xfd` at offset 63. -/
def mkFrame (t five plen : Nat) (payload : List Nat) : List Nat :=
  [t, 0, 0, 0, 0, five, plen] ++ (payload ++ List.replicate (54 - payload.length) 0) ++ [0, 0, 0xfd]

/-! Line-protocol encoder `idb` (src/main.rs lines 70-125).  Rust `&str` /
`String` values are modelled as `List Char`; `String::pop` is `List.dropLast`
(both remove the final character). -/

/-- Mirrors Rust `str::split(' ')`: splits on every single space, keeping
empty segments; the empty string yields one empty segment. -/
def splitOnSpace : List Char → List (List Char)
  | [] => [[]]
  | c :: rest =>
    let r := splitOnSpace rest
    if c = ' ' then
      [] :: r
    else
      match r with
      | [] => [[c]]
      | t :: ts => (c :: t) :: ts

/-- The fixed key list zipped against the body tokens (src/main.rs lines 75-108). -/
def idbKeys : List (List Char) :=
  ["channel".toList, "_date".toList, "_time".toList,
   "indoor_temp".toList, "indoor_humidity".toList,
   "temp".toList, "humidity".toList, "rain".toList, "rate".toList,
   "wind".toList, "gust".toList, "dir".toList, "wind_octant".toList,
   "pressure".toList, "pressure_local".toList, "uv_index".toList,
   "dew".toList, "outdoor_heat_index".toList,
   "sensor1_temp".toList, "sensor1_humidity".toList,
   "sensor2_temp".toList, "sensor2_humidity".toList,
   "sensor3_temp".toList, "sensor3_humidity".toList,
   "sensor4_temp".toList, "sensor4_humidity".toList,
   "sensor5_temp".toList, "sensor5_humidity".toList,
   "sensor6_temp".toList, "sensor6_humidity".toList,
   "sensor7_temp".toList, "sensor7_humidity".toList]

/-- Mirrors `key.starts_with('_')`. -/
def keyStartsUnderscore (k : List Char) : Bool :=
  match k with
  | [] => false
  | c :: _ => c == '_'

/-- Mirrors `value.chars().all(|s| "-.".contains(s))`. -/
def isPlaceholderToken (v : List Char) : Bool :=
  v.all fun c => c == '-' || c == '.'

/-- Mirrors `key.ends_with("octant")`. -/
def keyIsOctant (k : List Char) : Bool :=
  List.isSuffixOf "octant".toList k

/-- The loop body of `idb` (src/main.rs lines 109-121): skip the field when
the key starts with an underscore or the token is all dashes/dots, otherwise
append `key=`, the value (quoted for the octant key), and a trailing comma. -/
def idbStep (s : List Char) (vk : List Char × List Char) : List Char :=
  if keyStartsUnderscore vk.2 || isPlaceholderToken vk.1 then
    s
  else
    let s := s ++ vk.2 ++ ['=']
    let s := if keyIsOctant vk.2 then s ++ ['"'] else s
    let s := s ++ vk.1
    let s := if keyIsOctant vk.2 then s ++ ['"'] else s
    s ++ [',']

/-- Mirrors `idb` (src/main.rs lines 70-125): builds
`weather,station=<station> ` then folds the token/key pairs with `idbStep`
and finally pops the last character (the trailing comma, or the space when
no field was emitted). -/
def idb (msg station : List Char) : List Char :=
  (((splitOnSpace msg).zip idbKeys).foldl idbStep
    ("weather,station=".toList ++ station ++ [' '])).dropLast

/-! Spec-side rendering, written from the specification's words (§4.3):
a field is emitted exactly when its position is not a suppressed metadata
position and its token is not placeholder-only; the octant value is quoted,
every other value copied verbatim; fields are comma-joined with no trailing
comma; the record opens with the fixed measurement and station tag. -/

/-- Spec-side description of one position: `none` when the position is
suppressed metadata or the token is the placeholder pattern, otherwise the
rendered `key=value` field (octant quoted, others verbatim). -/
def emitField (vk : List Char × List Char) : Option (List Char) :=
  if keyStartsUnderscore vk.2 || isPlaceholderToken vk.1 then
    none
  else
    some (vk.2 ++ '=' :: (if keyIsOctant vk.2 then '"' :: vk.1 ++ ['"'] else vk.1))

/-- Spec-side emitted field list for a token sequence, in fixed positional
order. -/
def specFields (tokens : List (List Char)) : List (List Char) :=
  (tokens.zip idbKeys).filterMap emitField

/-- Comma-join with no trailing comma. -/
def joinComma : List (List Char) → List Char
  | [] => []
  | [f] => f
  | f :: fs => f ++ ',' :: joinComma fs

/-- Spec-side record: measurement and station tag, then the comma-joined
fields (separated from the tag by one space), or nothing when no field is
emitted. -/
def renderRecord (station : List Char) (fs : List (List Char)) : List Char :=
  "weather,station=".toList ++ station ++
    (match fs with
     | [] => []
     | _ => ' ' :: joinComma fs)

/-- The accumulator after the type/length adoption step of `push`: a fresh
accumulator (type 0) takes the frame's type byte and total-fragment nibble,
any other accumulator is left as is. -/
def adopt (m : Message) (buf : List Nat) : Message :=
  if m.typ = 0 then { m with typ := buf.getD 0 0, length := buf.getD 5 0 / 16 } else m

/-- The four-way comparison performed by `push` (src/main.rs lines 56-58),
phrased over the post-adoption state. -/
def tupleOk (m : Message) (buf : List Nat) : Prop :=
  ((adopt m buf).typ, (adopt m buf).length, m.current + 1, (0xfd : Nat)) =
    (buf.getD 0 0, buf.getD 5 0 / 16, buf.getD 5 0 % 16, buf.getD 63 0)

instance (m : Message) (buf : List Nat) : Decidable (tupleOk m buf) := by
  unfold tupleOk; infer_instance

/-- Fields each followed by a comma, as the fold in `idb` lays them out. -/
def commaTrail : List (List Char) → List Char
  | [] => []
  | f :: fs => f ++ ',' :: commaTrail fs

/-- The `i`-th frame of an `N`-fragment message of type `t`: 64 bytes, type
byte `t`, packed nibble byte `16*N + i`, payload-length byte at most 54,
end marker `0xfd`, and a valid-UTF-8 payload prefix. -/
def validFrame (t N i : Nat) (buf : List Nat) : Prop :=
  buf.length = 64 ∧ buf.getD 0 0 = t ∧ buf.getD 5 0 = 16 * N + i ∧
    buf.getD 6 0 ≤ 54 ∧ buf.getD 63 0 = 0xfd ∧ isValidUtf8 (payloadOf buf) = true

instance (t N i : Nat) (buf : List Nat) : Decidable (validFrame t N i buf) := by
  unfold validFrame
  infer_instance

/-- First fragment of the witness sequence: type `0xfe`, 2 fragments, index 1,
payload "hi". -/
def frameW1 : List Nat := mkFrame 0xfe 0x21 2 [104, 105]

/-- Second fragment of the witness sequence: type `0xfe`, 2 fragments,
index 2, payload "!". -/
def frameW2 : List Nat := mkFrame 0xfe 0x22 1 [33]

/-- First fragment of the C7 counterexample: type byte 0, total nibble 2,
index 1. -/
def frameT0 : List Nat := mkFrame 0 0x21 0 []

/-- Second frame of the C7 counterexample: type byte 5, nibble byte 0
(declared total 0). -/
def frameShrink : List Nat := mkFrame 5 0x00 0 []

/-- First type-0 fragment for C9: total nibble 2, index 1. -/
def frameZ1 : List Nat := mkFrame 0 0x21 0 []

/-- Second type-0 fragment for C9: total nibble 2, index 2. -/
def frameZ2 : List Nat := mkFrame 0 0x22 0 []

/-! Branch analysis of `push`.  `adopt` is the state after the conditional
type/length adoption (src/main.rs lines 50-53); the six lemmas below give
`push`'s value on each of its branches. -/

@[simp] lemma adopt_data (m : Message) (buf : List Nat) : (adopt m buf).data = m.data := by
  unfold adopt; split <;> rfl

@[simp] lemma adopt_current (m : Message) (buf : List Nat) : (adopt m buf).current = m.current := by
  unfold adopt; split <;> rfl

lemma adopt_of_typ_ne (m : Message) (buf : List Nat) (h : m.typ ≠ 0) : adopt m buf = m := by
  unfold adopt; simp [h]

lemma adopt_of_typ_eq (m : Message) (buf : List Nat) (h : m.typ = 0) :
    adopt m buf = { m with typ := buf.getD 0 0, length := buf.getD 5 0 / 16 } := by
  unfold adopt; simp [h]

lemma push_eq_buffer {m : Message} {buf : List Nat} (h : buf.length ≠ 64) :
    push m buf = (m, .error .buffer) := by
  simp only [push]
  rw [if_pos h]

lemma push_eq_panic {m : Message} {buf : List Nat} (h64 : buf.length = 64)
    (hp : 54 < buf.getD 6 0) : push m buf = (m, .panic) := by
  simp only [push]
  rw [if_neg (not_not_intro h64), if_pos hp]

lemma push_eq_complete {m : Message} {buf : List Nat} (h64 : buf.length = 64)
    (hp : buf.getD 6 0 ≤ 54) (hc : (adopt m buf).length ≤ m.current) :
    push m buf = (adopt m buf, .error .complete) := by
  have ha : (if m.typ = 0 then { m with typ := buf.getD 0 0, length := buf.getD 5 0 / 16 } else m)
      = adopt m buf := rfl
  simp only [push]
  rw [if_neg (not_not_intro h64), if_neg (Nat.not_lt.mpr hp), ha, adopt_current, if_pos hc]

lemma push_eq_format {m : Message} {buf : List Nat} (h64 : buf.length = 64)
    (hp : buf.getD 6 0 ≤ 54) (hc : ¬ (adopt m buf).length ≤ m.current)
    (ht : ¬ tupleOk m buf) :
    push m buf = (adopt m buf, .error .format) := by
  have ha : (if m.typ = 0 then { m with typ := buf.getD 0 0, length := buf.getD 5 0 / 16 } else m)
      = adopt m buf := rfl
  have ht2 : ((adopt m buf).typ, (adopt m buf).length, m.current + 1, (0xfd : Nat)) ≠
      (buf.getD 0 0, buf.getD 5 0 / 16, buf.getD 5 0 % 16, buf.getD 63 0) := ht
  simp only [push]
  rw [if_neg (not_not_intro h64), if_neg (Nat.not_lt.mpr hp), ha, adopt_current, if_neg hc,
    if_pos ht2]

lemma push_eq_utf8 {m : Message} {buf : List Nat} (h64 : buf.length = 64)
    (hp : buf.getD 6 0 ≤ 54) (hc : ¬ (adopt m buf).length ≤ m.current)
    (ht : tupleOk m buf) (hu : ¬ isValidUtf8 (payloadOf buf)) :
    push m buf = (adopt m buf, .error .utf8) := by
  have ha : (if m.typ = 0 then { m with typ := buf.getD 0 0, length := buf.getD 5 0 / 16 } else m)
      = adopt m buf := rfl
  have ht2 : ((adopt m buf).typ, (adopt m buf).length, m.current + 1, (0xfd : Nat)) =
      (buf.getD 0 0, buf.getD 5 0 / 16, buf.getD 5 0 % 16, buf.getD 63 0) := ht
  have hpay : ((buf.drop 7).take 54).take (buf.getD 6 0) = payloadOf buf := rfl
  simp only [push]
  rw [if_neg (not_not_intro h64), if_neg (Nat.not_lt.mpr hp), ha, adopt_current, if_neg hc,
    if_neg (not_not_intro ht2), hpay, if_pos hu]

lemma push_eq_ok {m : Message} {buf : List Nat} (h64 : buf.length = 64)
    (hp : buf.getD 6 0 ≤ 54) (hc : ¬ (adopt m buf).length ≤ m.current)
    (ht : tupleOk m buf) (hu : isValidUtf8 (payloadOf buf)) :
    push m buf =
      ({ adopt m buf with data := m.data ++ payloadOf buf, current := m.current + 1 }, .ok) := by
  have ha : (if m.typ = 0 then { m with typ := buf.getD 0 0, length := buf.getD 5 0 / 16 } else m)
      = adopt m buf := rfl
  have ht2 : ((adopt m buf).typ, (adopt m buf).length, m.current + 1, (0xfd : Nat)) =
      (buf.getD 0 0, buf.getD 5 0 / 16, buf.getD 5 0 % 16, buf.getD 63 0) := ht
  have hpay : ((buf.drop 7).take 54).take (buf.getD 6 0) = payloadOf buf := rfl
  simp only [push]
  rw [if_neg (not_not_intro h64), if_neg (Nat.not_lt.mpr hp), ha, adopt_current, if_neg hc,
    if_neg (not_not_intro ht2), hpay, if_neg (not_not_intro hu), adopt_data]

/-! Structural lemmas for `idb`. -/

lemma idbStep_eq (s : List Char) (vk : List Char × List Char) :
    idbStep s vk =
      match emitField vk with
      | none => s
      | some f => s ++ f ++ [','] := by
  unfold idbStep emitField
  by_cases h : keyStartsUnderscore vk.2 || isPlaceholderToken vk.1
  · simp [h]
  · by_cases ho : keyIsOctant vk.2 <;> simp [h, ho]

lemma foldl_idbStep (l : List (List Char × List Char)) (s0 : List Char) :
    l.foldl idbStep s0 = s0 ++ commaTrail (l.filterMap emitField) := by
  induction l generalizing s0 with
  | nil => simp [commaTrail]
  | cons vk l ih =>
    rw [List.foldl_cons, ih, idbStep_eq]
    cases h : emitField vk with
    | none => simp [List.filterMap_cons, h]
    | some f => simp [List.filterMap_cons, h, commaTrail]

lemma commaTrail_eq_joinComma (fs : List (List Char)) (h : fs ≠ []) :
    commaTrail fs = joinComma fs ++ [','] := by
  induction fs with
  | nil => exact absurd rfl h
  | cons f fs ih =>
    cases fs with
    | nil => simp [commaTrail, joinComma]
    | cons g gs =>
      rw [commaTrail, ih (by simp)]
      simp [joinComma]

/-- The encoder, re-expressed through the spec-side field list: `idb` renders
exactly the record `renderRecord` describes. -/
lemma idb_eq_render (msg station : List Char) :
    idb msg station = renderRecord station (specFields (splitOnSpace msg)) := by
  unfold idb renderRecord specFields
  rw [foldl_idbStep]
  cases hfs : ((splitOnSpace msg).zip idbKeys).filterMap emitField with
  | nil =>
    rw [commaTrail, List.append_nil]
    simp only [← List.append_assoc]
    rw [List.dropLast_concat]
    simp
  | cons f fs =>
    rw [commaTrail_eq_joinComma _ (by simp)]
    simp only [← List.append_assoc]
    rw [List.dropLast_concat]
    simp [List.append_assoc]

lemma zip_take_length (l : List (List Char)) (ks : List (List Char)) :
    (l.take ks.length).zip ks = l.zip ks := by
  induction l generalizing ks with
  | nil => simp
  | cons a l ih =>
    cases ks with
    | nil => simp
    | cons k ks => simp [ih]

/-! Valid fragment sequences (claim C1). -/

lemma push_valid_mid (d : List Nat) (t N k : Nat) (buf : List Nat)
    (ht : t ≠ 0) (hN : N < 16) (hk : k < N) (hv : validFrame t N (k + 1) buf) :
    push ⟨d, t, N, k⟩ buf = (⟨d ++ payloadOf buf, t, N, k + 1⟩, .ok) := by
  obtain ⟨h64, h0, h5, h6, h63, hutf⟩ := hv
  have hadopt : adopt ⟨d, t, N, k⟩ buf = ⟨d, t, N, k⟩ := adopt_of_typ_ne _ _ ht
  have hdiv : buf.getD 5 0 / 16 = N := by omega
  have hmod : buf.getD 5 0 % 16 = k + 1 := by omega
  have hc : ¬ (adopt ⟨d, t, N, k⟩ buf).length ≤ (⟨d, t, N, k⟩ : Message).current := by
    rw [hadopt]
    exact Nat.not_le.mpr hk
  have htup : tupleOk ⟨d, t, N, k⟩ buf := by
    unfold tupleOk
    rw [hadopt, h0, hdiv, hmod, h63]
  rw [push_eq_ok h64 h6 hc htup hutf, hadopt]

lemma push_valid_first (t N : Nat) (buf : List Nat)
    (_ht : t ≠ 0) (hN1 : 1 ≤ N) (hN : N < 16) (hv : validFrame t N 1 buf) :
    push Message.init buf = (⟨payloadOf buf, t, N, 1⟩, .ok) := by
  obtain ⟨h64, h0, h5, h6, h63, hutf⟩ := hv
  have hdiv : buf.getD 5 0 / 16 = N := by omega
  have hmod : buf.getD 5 0 % 16 = 1 := by omega
  have hadopt : adopt Message.init buf = ⟨[], t, N, 0⟩ := by
    rw [adopt_of_typ_eq _ _ rfl, h0, hdiv]
    rfl
  have hc : ¬ (adopt Message.init buf).length ≤ Message.init.current := by
    rw [hadopt]
    show ¬ N ≤ 0
    omega
  have htup : tupleOk Message.init buf := by
    unfold tupleOk
    rw [hadopt, h0, hdiv, hmod, h63]
    rfl
  rw [push_eq_ok h64 h6 hc htup hutf, hadopt]
  simp [Message.init]

lemma getD_take {α : Type} (l : List α) (n j : Nat) (d : α) (h : j < n) :
    (l.take n).getD j d = l.getD j d := by
  induction l generalizing n j with
  | nil => simp
  | cons a l ih =>
    cases n with
    | zero => omega
    | succ n =>
      cases j with
      | zero => simp
      | succ j => simpa using ih n j (by omega)

lemma pushAllOk_run (fs : List (List Nat)) (t N : Nat) :
    ∀ (k : Nat) (d : List Nat), t ≠ 0 → N < 16 → k + fs.length ≤ N →
      (∀ j, j < fs.length → validFrame t N (k + j + 1) (fs.getD j [])) →
      pushAllOk ⟨d, t, N, k⟩ fs = some ⟨d ++ (fs.map payloadOf).flatten, t, N, k + fs.length⟩ := by
  induction fs with
  | nil =>
    intro k d ht hN hle hv
    simp [pushAllOk]
  | cons f fs ih =>
    intro k d ht hN hle hv
    have hk : k < N := by
      simp only [List.length_cons] at hle
      omega
    have hv0 : validFrame t N (k + 1) f := by simpa using hv 0 (by simp)
    simp only [pushAllOk]
    rw [push_valid_mid d t N k f ht hN hk hv0]
    show pushAllOk ⟨d ++ payloadOf f, t, N, k + 1⟩ fs = _
    rw [ih (k + 1) (d ++ payloadOf f) ht hN
      (by simp only [List.length_cons] at hle; omega)
      (fun j hj => by simpa [Nat.add_assoc, Nat.add_comm 1 j] using hv (j + 1) (by simpa using Nat.succ_lt_succ hj))]
    simp [List.append_assoc, Nat.add_assoc, Nat.add_comm 1 fs.length]

/-- C1: for every valid N-fragment sequence (N ≥ 1 frames of exactly 64 bytes
sharing one non-zero type byte, total-fragment nibble N, fragment indices
1..N pushed in order, end marker `0xfd`, payload-length byte at most 54,
valid-UTF-8 payloads) pushed into a fresh accumulator, every push returns Ok,
`is_complete` holds exactly after the Nth push and never earlier, and
`finish` returns the adopted type paired with the concatenation of the
per-frame payload prefixes in fragment order. -/
theorem valid_sequence_assembles (t N : Nat) (frames : List (List Nat))
    (ht : t ≠ 0) (hN1 : 1 ≤ N) (hN : N < 16) (hlen : frames.length = N)
    (hv : ∀ k, k < frames.length → validFrame t N (k + 1) (frames.getD k [])) :
    (∀ k, k ≤ N → ∃ m, pushAllOk Message.init (frames.take k) = some m ∧
        (m.complete = true ↔ k = N)) ∧
    ∃ mfin, pushAllOk Message.init frames = some mfin ∧ mfin.complete = true ∧
      mfin.finish = (t, (frames.map payloadOf).flatten) := by
  cases frames with
  | nil =>
    simp only [List.length_nil] at hlen
    omega
  | cons f0 rest =>
    have hrlen : rest.length = N - 1 := by
      simp only [List.length_cons] at hlen
      omega
    have hv0 : validFrame t N 1 f0 := by simpa using hv 0 (by simp)
    have key : ∀ k, k ≤ N → 1 ≤ k →
        pushAllOk Message.init ((f0 :: rest).take k)
          = some ⟨(((f0 :: rest).take k).map payloadOf).flatten, t, N, k⟩ := by
      intro k hkN hk1
      obtain ⟨k', rfl⟩ : ∃ k', k = k' + 1 := ⟨k - 1, by omega⟩
      rw [List.take_succ_cons]
      simp only [pushAllOk]
      rw [push_valid_first t N f0 ht hN1 hN hv0]
      show pushAllOk ⟨payloadOf f0, t, N, 1⟩ (rest.take k') = _
      rw [pushAllOk_run (rest.take k') t N 1 (payloadOf f0) ht hN
        (by rw [List.length_take]; omega)
        (by
          intro j hj
          rw [List.length_take] at hj
          rw [getD_take rest k' j [] (by omega)]
          have hvj := hv (j + 1) (by simp only [List.length_cons]; omega)
          have hidx : 1 + j + 1 = j + 1 + 1 := by omega
          rw [hidx]
          simpa using hvj)]
      simp only [List.map_cons, List.flatten_cons, Option.some.injEq, Message.mk.injEq,
        List.length_take, true_and]
      omega
    constructor
    · intro k hk
      rcases Nat.eq_zero_or_pos k with h0 | hpos
      · subst h0
        refine ⟨Message.init, by simp [pushAllOk], ?_, ?_⟩
        · intro hc
          simp [Message.complete, Message.init] at hc
        · intro hkN
          exact absurd hkN (by omega)
      · refine ⟨_, key k hk hpos, ?_⟩
        simp [Message.complete, ht]
    · have hfin := key N le_rfl hN1
      rw [← hlen, List.take_length] at hfin
      refine ⟨_, hfin, ?_, ?_⟩
      · simp [Message.complete, ht]
      · simp [Message.finish]

theorem valid_sequence_assembles_witness :
    ∃ mfin, pushAllOk Message.init [frameW1, frameW2] = some mfin ∧ mfin.complete = true ∧
      mfin.finish = (0xfe, ([frameW1, frameW2].map payloadOf).flatten) :=
  (valid_sequence_assembles 0xfe 2 [frameW1, frameW2] (by decide) (by decide) (by decide)
    (by decide) (by decide)).2

/-! Exhaustive case analysis of `push`. -/

lemma push_result_shape (m : Message) (buf : List Nat) (h64 : buf.length = 64)
    (hp : buf.getD 6 0 ≤ 54) :
    (push m buf).2 = .ok ∨ (push m buf).2 = .error .complete ∨
      (push m buf).2 = .error .format ∨ (push m buf).2 = .error .utf8 := by
  by_cases hc : (adopt m buf).length ≤ m.current
  · rw [push_eq_complete h64 hp hc]
    right; left; rfl
  · by_cases htup : tupleOk m buf
    · by_cases hu : isValidUtf8 (payloadOf buf)
      · rw [push_eq_ok h64 hp hc htup hu]
        left; rfl
      · rw [push_eq_utf8 h64 hp hc htup hu]
        right; right; right; rfl
    · rw [push_eq_format h64 hp hc htup]
      right; right; left; rfl

lemma push_cases (m : Message) (buf : List Nat) :
    push m buf = (m, .error .buffer) ∨ push m buf = (m, .panic) ∨
      push m buf = (adopt m buf, .error .complete) ∨
      push m buf = (adopt m buf, .error .format) ∨
      push m buf = (adopt m buf, .error .utf8) ∨
      (¬ (adopt m buf).length ≤ m.current ∧
        push m buf =
          ({ adopt m buf with data := m.data ++ payloadOf buf, current := m.current + 1 },
            .ok)) := by
  by_cases h64 : buf.length = 64
  · by_cases hp : 54 < buf.getD 6 0
    · right; left
      exact push_eq_panic h64 hp
    · have hp2 := Nat.not_lt.mp hp
      by_cases hc : (adopt m buf).length ≤ m.current
      · right; right; left
        exact push_eq_complete h64 hp2 hc
      · by_cases htup : tupleOk m buf
        · by_cases hu : isValidUtf8 (payloadOf buf)
          · right; right; right; right; right
            exact ⟨hc, push_eq_ok h64 hp2 hc htup hu⟩
          · right; right; right; right; left
            exact push_eq_utf8 h64 hp2 hc htup hu
        · right; right; right; left
          exact push_eq_format h64 hp2 hc htup
  · left
    exact push_eq_buffer h64

/-- C2 (amended): for a 64-byte frame whose payload-length byte is at most 54,
pushed into an accumulator that after the adoption step still expects
fragments (received_fragments below the declared length), push accepts only
if the four header conditions (type = adopted type, total nibble = declared
length, index nibble = received_fragments + 1, end byte = 0xfd) all hold, and
any mismatch of the four yields the sequence error with `data` and
`received_fragments` unchanged. -/
theorem push_sequence_check (m : Message) (buf : List Nat)
    (h64 : buf.length = 64) (hpl : buf.getD 6 0 ≤ 54)
    (hcur : m.current < (adopt m buf).length) :
    ((push m buf).2 = .ok → tupleOk m buf) ∧
    (¬ tupleOk m buf →
      (push m buf).2 = .error .format ∧ (push m buf).1.data = m.data ∧
        (push m buf).1.current = m.current) := by
  have hc : ¬ (adopt m buf).length ≤ m.current := Nat.not_le.mpr hcur
  constructor
  · intro hok
    by_contra htup
    rw [push_eq_format h64 hpl hc htup] at hok
    exact nomatch hok
  · intro htup
    rw [push_eq_format h64 hpl hc htup]
    exact ⟨rfl, adopt_data m buf, adopt_current m buf⟩

theorem push_sequence_check_witness :
    ((push Message.init (mkFrame 0xfe 0x12 0 [])).2 = .ok →
      tupleOk Message.init (mkFrame 0xfe 0x12 0 [])) ∧
    ((push Message.init (mkFrame 0xfe 0x12 0 [])).2 = .error .format ∧
      (push Message.init (mkFrame 0xfe 0x12 0 [])).1.data = Message.init.data ∧
      (push Message.init (mkFrame 0xfe 0x12 0 [])).1.current = Message.init.current) :=
  ⟨(push_sequence_check Message.init (mkFrame 0xfe 0x12 0 [])
      (by decide) (by decide) (by decide)).1,
   (push_sequence_check Message.init (mkFrame 0xfe 0x12 0 [])
      (by decide) (by decide) (by decide)).2 (by decide)⟩

/-- C2 counterexample: a fresh (hence not complete) accumulator receiving a
64-byte frame whose fragment-index nibble (0) is not received_fragments + 1
(= 1) gets the `AlreadyComplete` error, not the `SequenceError` the claim
demands (the declared length adopted from the frame is 0, so the
completeness branch fires first). -/
theorem push_sequence_check_cex :
    Message.complete Message.init = false ∧
    (mkFrame 0xfe 0x00 0 []).length = 64 ∧
    (mkFrame 0xfe 0x00 0 []).getD 5 0 % 16 ≠ Message.init.current + 1 ∧
    (push Message.init (mkFrame 0xfe 0x00 0 [])).2 ≠ .error .format ∧
    (push Message.init (mkFrame 0xfe 0x00 0 [])).2 = .error .complete := by
  decide

/-- C3 (amended): push returns the malformed-frame error exactly when the
buffer length is not 64; a 64-byte buffer whose payload-length byte is at
most 54 never makes push panic (the result is Ok or a recoverable error),
but a payload-length byte above 54 makes push panic. -/
theorem push_malformed_and_crash (m : Message) (buf : List Nat) :
    ((push m buf).2 = .error .buffer ↔ buf.length ≠ 64) ∧
    (buf.length = 64 → buf.getD 6 0 ≤ 54 → (push m buf).2 ≠ .panic) ∧
    (buf.length = 64 → 54 < buf.getD 6 0 → (push m buf).2 = .panic) := by
  refine ⟨⟨?_, ?_⟩, ?_, ?_⟩
  · intro hb
    by_contra hne
    have h64 : buf.length = 64 := hne
    by_cases hp : 54 < buf.getD 6 0
    · rw [push_eq_panic h64 hp] at hb
      exact nomatch hb
    · rcases push_result_shape m buf h64 (Nat.not_lt.mp hp) with h | h | h | h <;>
        rw [h] at hb <;> exact nomatch hb
  · intro hne
    rw [push_eq_buffer hne]
  · intro h64 hp hpa
    rcases push_result_shape m buf h64 hp with h | h | h | h <;>
      rw [h] at hpa <;> exact nomatch hpa
  · intro h64 hp
    rw [push_eq_panic h64 hp]

theorem push_malformed_and_crash_witness :
    ((push Message.init (mkFrame 0xfe 0x11 0 [])).2 = .error .buffer ↔
      (mkFrame 0xfe 0x11 0 []).length ≠ 64) ∧
    (push Message.init (mkFrame 0xfe 0x11 0 [])).2 ≠ .panic ∧
    (push Message.init (mkFrame 0xfe 0x11 55 [])).2 = .panic :=
  ⟨(push_malformed_and_crash Message.init (mkFrame 0xfe 0x11 0 [])).1,
   (push_malformed_and_crash Message.init (mkFrame 0xfe 0x11 0 [])).2.1
     (by decide) (by decide),
   (push_malformed_and_crash Message.init (mkFrame 0xfe 0x11 55 [])).2.2
     (by decide) (by decide)⟩

/-- C3 counterexample: a 64-byte buffer whose payload-length byte is 55 makes
push panic (`&buf[7..61][..55]` is out of range), so push does not return Ok
or a recoverable error on every 64-byte buffer. -/
theorem push_malformed_and_crash_cex :
    (mkFrame 0xfe 0x11 55 []).length = 64 ∧
    (push Message.init (mkFrame 0xfe 0x11 55 [])).2 = .panic := by
  decide

/-- C7 (amended): once the type field is non-zero, push never modifies type
or total_fragments; an accepted push increments received_fragments by exactly
1; and received_fragments stays at most total_fragments after a push provided
the accumulator's type was non-zero or nothing had been received yet (a
type-0 accumulator with received fragments can be re-adopted to a smaller
declared length, breaking the bound). -/
theorem push_invariants (m : Message) (buf : List Nat) :
    (m.typ ≠ 0 → (push m buf).1.typ = m.typ ∧ (push m buf).1.length = m.length) ∧
    ((push m buf).2 = .ok → (push m buf).1.current = m.current + 1) ∧
    (m.current ≤ m.length → (m.typ ≠ 0 ∨ m.current = 0) →
      (push m buf).1.current ≤ (push m buf).1.length) := by
  have hadoptLen : ∀ htne : m.typ ≠ 0, (adopt m buf).length = m.length := by
    intro htne
    rw [adopt_of_typ_ne _ _ htne]
  have herrCase : ∀ e : MessageError, push m buf = (adopt m buf, .error e) →
      (m.typ ≠ 0 → (push m buf).1.typ = m.typ ∧ (push m buf).1.length = m.length) ∧
      ((push m buf).2 = .ok → (push m buf).1.current = m.current + 1) ∧
      (m.current ≤ m.length → (m.typ ≠ 0 ∨ m.current = 0) →
        (push m buf).1.current ≤ (push m buf).1.length) := by
    intro e h
    rw [h]
    refine ⟨fun htne => ?_, fun hok => ?_, fun hcur hd => ?_⟩
    · rw [adopt_of_typ_ne _ _ htne]
      exact ⟨rfl, rfl⟩
    · exact nomatch hok
    · show (adopt m buf).current ≤ (adopt m buf).length
      rw [adopt_current]
      rcases hd with htne | h0
      · rw [hadoptLen htne]
        exact hcur
      · rw [h0]
        exact Nat.zero_le _
  rcases push_cases m buf with h | h | h | h | h | ⟨hc, h⟩
  · rw [h]
    refine ⟨fun _ => ⟨rfl, rfl⟩, fun hok => ?_, fun hcur _ => hcur⟩
    exact nomatch hok
  · rw [h]
    refine ⟨fun _ => ⟨rfl, rfl⟩, fun hok => ?_, fun hcur _ => hcur⟩
    exact nomatch hok
  · exact herrCase _ h
  · exact herrCase _ h
  · exact herrCase _ h
  · rw [h]
    refine ⟨fun htne => ?_, fun _ => rfl, fun hcur hd => ?_⟩
    · rw [adopt_of_typ_ne _ _ htne]
      exact ⟨rfl, rfl⟩
    · show m.current + 1 ≤ (adopt m buf).length
      exact Nat.succ_le_of_lt (Nat.lt_of_not_le hc)

theorem push_invariants_witness :
    ((push ⟨[], 0xfe, 2, 1⟩ frameW2).1.typ = 0xfe ∧
      (push ⟨[], 0xfe, 2, 1⟩ frameW2).1.length = 2) ∧
    (push ⟨[], 0xfe, 2, 1⟩ frameW2).1.current = 1 + 1 ∧
    (push ⟨[], 0xfe, 2, 1⟩ frameW2).1.current ≤ (push ⟨[], 0xfe, 2, 1⟩ frameW2).1.length :=
  ⟨(push_invariants ⟨[], 0xfe, 2, 1⟩ frameW2).1 (by decide),
   (push_invariants ⟨[], 0xfe, 2, 1⟩ frameW2).2.1 (by decide),
   (push_invariants ⟨[], 0xfe, 2, 1⟩ frameW2).2.2 (by decide) (Or.inl (by decide))⟩

/-- C7 counterexample: from a fresh accumulator, a type-0 first fragment is
accepted (received_fragments = 1 ≤ total 2), and the next push re-adopts
type 5 with declared length 0 — after that push received_fragments (1)
exceeds total_fragments (0), violating the claimed invariant. -/
theorem push_invariants_cex :
    (push Message.init frameT0).2 = .ok ∧
    (push Message.init frameT0).1.current ≤ (push Message.init frameT0).1.length ∧
    (push (push Message.init frameT0).1 frameShrink).1.length <
      (push (push Message.init frameT0).1 frameShrink).1.current := by
  decide

/-- C8 (amended): provided the frame's payload-length byte is at most 54, a
push into an already-complete accumulator returns the distinct
`AlreadyComplete` signal and leaves the accumulator (data included) entirely
unchanged. -/
theorem push_already_complete (m : Message) (buf : List Nat)
    (h64 : buf.length = 64) (hpl : buf.getD 6 0 ≤ 54) (hcm : m.complete = true) :
    push m buf = (m, .error .complete) := by
  have hcm2 : m.typ ≠ 0 ∧ m.current = m.length := by
    simpa [Message.complete] using hcm
  have ha : adopt m buf = m := adopt_of_typ_ne _ _ hcm2.1
  have hc : (adopt m buf).length ≤ m.current := by
    rw [ha, hcm2.2]
  rw [push_eq_complete h64 hpl hc, ha]

theorem push_already_complete_witness :
    push ⟨[104], 0xfe, 1, 1⟩ (mkFrame 0xfe 0x11 0 []) =
      (⟨[104], 0xfe, 1, 1⟩, .error .complete) :=
  push_already_complete ⟨[104], 0xfe, 1, 1⟩ (mkFrame 0xfe 0x11 0 [])
    (by decide) (by decide) (by decide)

/-- C8 counterexample: with a payload-length byte of 60 (above 54), the push
into an already-complete accumulator panics instead of returning
`AlreadyComplete` — the claim's "regardless of the frame's content" fails. -/
theorem push_already_complete_cex :
    Message.complete ⟨[104], 0xfe, 1, 1⟩ = true ∧
    (push ⟨[104], 0xfe, 1, 1⟩ (mkFrame 0xfe 0x11 60 [])).2 = .panic := by
  decide

/-- C9: is_complete is false whenever the type field is 0; a push whose frame
carries type byte 0 into a type-0 accumulator leaves the type 0, and a
concrete two-fragment type-0 sequence is accepted push by push while
completeness stays false throughout — such a message is never finished. -/
theorem type_zero_never_complete :
    (∀ m : Message, m.typ = 0 → m.complete = false) ∧
    (∀ (m : Message) (buf : List Nat), m.typ = 0 → buf.getD 0 0 = 0 →
      (push m buf).1.typ = 0) ∧
    ((push Message.init frameZ1).2 = .ok ∧
      (push (push Message.init frameZ1).1 frameZ2).2 = .ok ∧
      (push Message.init frameZ1).1.complete = false ∧
      (push (push Message.init frameZ1).1 frameZ2).1.complete = false) := by
  refine ⟨?_, ?_, by decide⟩
  · intro m hm
    simp [Message.complete, hm]
  · intro m buf hm hb
    rcases push_cases m buf with h | h | h | h | h | ⟨hc, h⟩ <;> rw [h]
    · exact hm
    · exact hm
    all_goals {
      show (adopt m buf).typ = 0
      rw [adopt_of_typ_eq _ _ hm]
      exact hb
    }

theorem type_zero_never_complete_witness :
    Message.complete ⟨[], 0, 3, 3⟩ = false ∧ (push Message.init frameZ1).1.typ = 0 :=
  ⟨type_zero_never_complete.1 ⟨[], 0, 3, 3⟩ rfl,
   type_zero_never_complete.2.1 Message.init frameZ1 rfl (by decide)⟩

/-- C10: on a fresh accumulator (type 0) a 64-byte frame's type byte and
total-fragment nibble are adopted before the validation checks, so a push
that returns SequenceError, AlreadyComplete or EncodingError still leaves
the adopted type and declared total stored, while `data` and
`received_fragments` are unchanged. -/
theorem push_adoption_on_error (m : Message) (buf : List Nat)
    (hm : m.typ = 0) (_h64 : buf.length = 64)
    (herr : (push m buf).2 = .error .format ∨ (push m buf).2 = .error .complete ∨
      (push m buf).2 = .error .utf8) :
    (push m buf).1.typ = buf.getD 0 0 ∧ (push m buf).1.length = buf.getD 5 0 / 16 ∧
    (push m buf).1.data = m.data ∧ (push m buf).1.current = m.current := by
  have hadopted : ∀ e : MessageError, push m buf = (adopt m buf, .error e) →
      (push m buf).1.typ = buf.getD 0 0 ∧ (push m buf).1.length = buf.getD 5 0 / 16 ∧
      (push m buf).1.data = m.data ∧ (push m buf).1.current = m.current := by
    intro e h
    rw [h, adopt_of_typ_eq _ _ hm]
    exact ⟨rfl, rfl, rfl, rfl⟩
  rcases push_cases m buf with h | h | h | h | h | ⟨hc, h⟩
  · rw [h] at herr
    rcases herr with he | he | he <;> exact nomatch he
  · rw [h] at herr
    rcases herr with he | he | he <;> exact nomatch he
  · exact hadopted _ h
  · exact hadopted _ h
  · exact hadopted _ h
  · rw [h] at herr
    rcases herr with he | he | he <;> exact nomatch he

theorem push_adoption_on_error_witness :
    (push Message.init (mkFrame 7 0x00 0 [])).1.typ = (mkFrame 7 0x00 0 []).getD 0 0 ∧
    (push Message.init (mkFrame 7 0x00 0 [])).1.length =
      (mkFrame 7 0x00 0 []).getD 5 0 / 16 ∧
    (push Message.init (mkFrame 7 0x00 0 [])).1.data = Message.init.data ∧
    (push Message.init (mkFrame 7 0x00 0 [])).1.current = Message.init.current :=
  push_adoption_on_error Message.init (mkFrame 7 0x00 0 []) rfl (by decide)
    (Or.inr (Or.inl (by decide)))

/-- C4 counterexample: encoding the scenario body with station `s1` does not
produce the record the claim states — the leading channel token is not
suppressed by the code. -/
theorem idb_scenario_cex :
    idb ("0 2023-05-01 12:30 -.- 45".toList) ("s1".toList) ≠
      "weather,station=s1 indoor_humidity=45".toList := by
  decide

/-- C4 (amended): encoding the body `0 2023-05-01 12:30 -.- 45` with station
`s1` produces `weather,station=s1 channel=0,indoor_humidity=45`: the
placeholder indoor-temperature token is omitted and the date and time
positions are suppressed, but the leading channel position is emitted as
`channel=0`. -/
theorem idb_scenario :
    idb ("0 2023-05-01 12:30 -.- 45".toList) ("s1".toList) =
      "weather,station=s1 channel=0,indoor_humidity=45".toList := by
  decide

/-- C5: for every message body, the encoder emits a key=value field exactly
for the positions (outside the underscore-suppressed metadata positions)
whose token is not composed solely of the characters `-` and `.`; the
wind-octant value is wrapped in double quotes, every other emitted value is
copied verbatim and unquoted, and the fields are comma-joined in fixed
positional order with no trailing comma. -/
theorem idb_renders_fields (msg station : List Char) :
    idb msg station = renderRecord station (specFields (splitOnSpace msg)) :=
  idb_eq_render msg station

/-- C6 counterexample: a one-token body — far short of the fixed 32-position
shape — is encoded without any error into a shorter record; no
TruncatedMessage signal exists in the encoder. -/
theorem idb_short_body_cex :
    idb ("0".toList) ("s1".toList) = "weather,station=s1 channel=0".toList := by
  decide

/-- C6 (amended): the encoder signals no truncation error: a body with fewer
space-separated tokens than the fixed 32-position shape silently yields a
shorter record containing only the fields for the positions that received
tokens, and tokens beyond the fixed shape are ignored without error. -/
theorem idb_token_shape (msg station : List Char) :
    idb msg station =
      renderRecord station (specFields ((splitOnSpace msg).take idbKeys.length)) := by
  rw [idb_eq_render]
  unfold specFields
  rw [zip_take_length]

end C8488
